import Mathlib

/-!
Shallow embedding of the `modvendor` tool (src/main.go) and verification of
the frozen claims about its specification.

The tool parses `vendor/modules.txt` into per-module records, resolves each
module's cache directory under `$GOPATH/pkg/mod` (escaping uppercase letters
with `!`), globs candidate files, filters them down to the files lying under a
referenced sub-package, and copies the survivors into `./vendor/`.

Strings are modelled by Lean `String` (a wrapper around `List Char`).  The Go
code indexes and slices strings by bytes; all paths and manifest tokens the
tool manipulates are ASCII (Go module paths are restricted to an ASCII
subset), where bytes and characters coincide, so character-based indexing is a
faithful model.  File-system effects (`os.Stat`, `zglob.Glob`, the raw byte
copy) are abstracted as oracle functions in an explicit environment; all pure
computation is translated directly from the source.
-/

namespace Modvendor

/-! ## Go `strings` primitives (src/main.go uses strings.Index, HasPrefix) -/

/-- Go `strings.HasPrefix(s, pre)`: does `s` begin with `pre`? -/
def strStartsWith (pre s : String) : Bool :=
  List.isPrefixOf pre.data s.data

/-- Split a character list at every occurrence of `sep` (the result always has
one more entry than the number of separators; entries may be empty). -/
def splitOnChar (sep : Char) : List Char → List (List Char)
  | [] => [[]]
  | c :: cs =>
    match splitOnChar sep cs with
    | [] => [[]]
    | r :: rs => if c = sep then [] :: r :: rs else (c :: r) :: rs

/-- Go `strings.Split(s, sep)` for a one-character separator (the only form
the tool uses: both split sites pass a single space). -/
def stringsSplit (s : String) (sep : Char) : List String :=
  (splitOnChar sep s.data).map (fun l => ⟨l⟩)

/-- Go `strings.TrimSpace`: strip leading and trailing whitespace.  (Go trims
Unicode white space; the tool only ever feeds it command-line flag text, for
which the ASCII whitespace classifier is the same function.) -/
def trimSpace (s : String) : String :=
  ⟨((s.data.dropWhile Char.isWhitespace).reverse.dropWhile Char.isWhitespace).reverse⟩

/-- Go `strings.Index(s, substr)`: index of the first occurrence of `substr`
in `s`, or `-1` if `substr` does not occur in `s`. -/
def stringsIndex (s substr : String) : Int :=
  match (List.range (s.data.length + 1)).find?
      (fun i => strStartsWith substr ⟨s.data.drop i⟩) with
  | some i => (i : Int)
  | none => -1

/-! ## Go `path/filepath` (unix): Clean and Join

`filepath.Clean` performs purely lexical path cleaning: it collapses repeated
separators, eliminates `.` components and `..` components together with the
preceding component (rooted paths drop excess `..`).  The Go implementation is
an imperative scan; the standard functional equivalent below splits the path
on `/` and processes the components against a stack. -/

/-- One step of lexical path cleaning: push a path component onto the stack of
already-cleaned components (held in reverse order). -/
def cleanStep (rooted : Bool) (stack : List (List Char)) (comp : List Char) :
    List (List Char) :=
  if comp = [] ∨ comp = ['.'] then stack
  else if comp = ['.', '.'] then
    match stack with
    | [] => if rooted then [] else [['.', '.']]
    | top :: rest => if top = ['.', '.'] then ['.', '.'] :: top :: rest else rest
  else comp :: stack

/-- Go `filepath.Clean` (unix), functional form. -/
def clean (p : String) : String :=
  match p.data with
  | [] => "."
  | c :: _ =>
    let rooted := c = '/'
    let comps := ((splitOnChar '/' p.data).foldl (cleanStep rooted) []).reverse
    let body := List.intercalate ['/'] comps
    if rooted then ⟨'/' :: body⟩
    else if body = [] then "." else ⟨body⟩

/-- Go `filepath.Join` (unix): drop leading empty elements, join the rest with
`/`, and `Clean` the result; all-empty input yields the empty string. -/
def goJoin (elems : List String) : String :=
  match elems.dropWhile (fun e => e == "") with
  | [] => ""
  | l => clean ⟨List.intercalate ['/'] (l.map String.data)⟩

/-! ## Data model (src/main.go lines 25-33) -/

/-- One manifest module record (Go struct `Mod`).  `VendorList` models the Go
`map[string]bool` of candidate file path to "in scope" flag as an association
list with distinct keys. -/
structure Mod where
  ImportPath : String := ""
  SourcePath : String := ""
  Version : String := ""
  SourceVersion : String := ""
  Dir : String := ""
  Pkgs : List String := []
  VendorList : List (String × Bool) := []
  deriving DecidableEq, Repr

/-- The ambient effects of a run, passed explicitly: the `GOPATH` and `HOME`
environment variables, the `os.Stat` existence oracle and the `zglob.Glob`
oracle (a glob pattern to the list of matched file paths). -/
structure Env where
  goPathEnv : String
  homeEnv : String
  dirExists : String → Bool
  glob : String → List String

/-! ## Path Encoder (src/main.go lines 196-214, `pkgModPath`) -/

/-- Encoding of one character of an import path: an uppercase letter becomes
the escape marker `!` followed by its lowercase form, any other character
passes through (the loop body of lines 205-211). -/
def encChar (c : Char) : List Char :=
  if c.isUpper then ['!', c.toLower] else [c]

/-- The character-by-character case-folding encoding of an import path
(the `normPath` accumulator of lines 203-211). -/
def normPath (importPath : String) : String :=
  ⟨(importPath.data.map encChar).flatten⟩

/-- The cache root: `$GOPATH`, defaulting to `$HOME/go` when unset
(lines 197-201). -/
def resolvedGoPath (env : Env) : String :=
  if env.goPathEnv = "" then goJoin [env.homeEnv, "go"] else env.goPathEnv

/-- Go `pkgModPath`: the cache directory of a module, i.e.
`Join(goPath, "pkg", "mod", normPath ++ "@" ++ version)` (line 213).  The
version string is not escaped. -/
def pkgModPath (env : Env) (importPath version : String) : String :=
  goJoin [resolvedGoPath env, "pkg", "mod", normPath importPath ++ "@" ++ version]

/-! ## importPathIntersect (src/main.go lines 189-194) -/

/-- Go `importPathIntersect`: the empty string when `pkgPath` does not begin
with `basePath`, otherwise the suffix of `pkgPath` after `basePath`. -/
def importPathIntersect (basePath pkgPath : String) : String :=
  if stringsIndex pkgPath basePath ≠ 0 then ""
  else ⟨pkgPath.data.drop basePath.data.length⟩

/-! ## Candidate Collector (src/main.go lines 172-187, `buildModVendorList`) -/

/-- Go `buildModVendorList`: glob every pattern rooted at the module's cache
directory and record each match, initially unselected.  The Go map collapses
duplicate matches, hence `eraseDups`.  (A malformed pattern aborts the run in
Go; pattern validity lives inside the glob oracle here and no claim concerns
it.) -/
def buildModVendorList (env : Env) (copyPat : List String) (mod : Mod) :
    List (String × Bool) :=
  ((copyPat.map (fun pat => env.glob (goJoin [mod.Dir, pat]))).flatten.eraseDups).map
    (fun m => (m, false))

/-! ## Manifest Parser (src/main.go lines 76-116)

The Go loop holds a pointer `mod *Mod` into the `modules` slice; appending to
`mod.Pkgs` mutates the record already stored in the slice.  The pure rendering
keeps the records already emitted and no longer current in `finished`, and the
record the cursor points at in `current`, paired with whether it was appended
to the slice (records whose version token is the redirection marker `=>` are
assigned to the cursor but never appended). -/

/-- Errors of a parse run.  `indexOutOfRange` models the Go panic on `line[0]`
for an empty line; `tokenMissing` the panic on `s[i]` for a short module line;
`nilModule` the nil-pointer dereference when a package line precedes any
module line; `missingDir` the `log.Fatal` for an absent cache directory
(lines 103-105). -/
inductive ParseError where
  | indexOutOfRange
  | tokenMissing
  | nilModule
  | missingDir (dir : String)
  deriving DecidableEq, Repr

/-- Parser state: emitted records no longer current, plus the current record
with its emitted flag. -/
structure ParseState where
  finished : List Mod
  current : Option (Mod × Bool)
  deriving DecidableEq, Repr

/-- The modules list as the Go slice holds it: every emitted record, with the
current one (when emitted) in final position carrying all mutations so far. -/
def ParseState.modules (st : ParseState) : List Mod :=
  st.finished ++ (match st.current with
    | some (m, true) => [m]
    | _ => [])

/-- Resolve, stat-check and emit a module record (lines 103-112): error when
its cache directory does not exist, otherwise populate its `VendorList` and
append it. -/
def finishModule (env : Env) (copyPat : List String) (st : ParseState)
    (m : Mod) : Except ParseError ParseState :=
  if env.dirExists m.Dir then
    .ok ⟨st.modules, some ({ m with VendorList := buildModVendorList env copyPat m }, true)⟩
  else .error (.missingDir m.Dir)

/-- One iteration of the scanner loop (lines 79-116). -/
def processLine (env : Env) (copyPat : List String) (st : ParseState)
    (line : String) : Except ParseError ParseState :=
  match line.data with
  | [] => .error .indexOutOfRange
  | c :: _ =>
    if c = '#' then
      let s := stringsSplit line ' '
      match s[1]?, s[2]? with
      | some ip, some ver =>
        if ver = "=>" then
          .ok ⟨st.modules, some ({ ImportPath := ip, Version := ver }, false)⟩
        else if s[3]? = some "=>" then
          match s[4]?, s[5]? with
          | some sp, some sv =>
            finishModule env copyPat st
              { ImportPath := ip, Version := ver, SourcePath := sp,
                SourceVersion := sv, Dir := pkgModPath env sp sv }
          | _, _ => .error .tokenMissing
        else
          finishModule env copyPat st
            { ImportPath := ip, Version := ver, Dir := pkgModPath env ip ver }
      | _, _ => .error .tokenMissing
    else
      match st.current with
      | none => .error .nilModule
      | some (m, emitted) =>
        .ok ⟨st.finished, some ({ m with Pkgs := m.Pkgs ++ [line] }, emitted)⟩

/-- The whole parse of the manifest's lines (the scanner loop). -/
def parseLines (env : Env) (copyPat : List String) (lines : List String) :
    Except ParseError (List Mod) :=
  (lines.foldlM (processLine env copyPat) ⟨[], none⟩).map ParseState.modules

/-! ## Scope Filter (src/main.go lines 119-145) -/

/-- The module's package set after appending every `-include` package that
begins with the module's import path (lines 124-128). -/
def extendPkgs (includedPackages : List String) (mod : Mod) : List String :=
  mod.Pkgs ++ includedPackages.filter (fun pkg => strStartsWith mod.ImportPath pkg)

/-- The scoping directory of one sub-package entry: the cache directory joined
with the suffix of the entry after the module's import path (line 132). -/
def scopeDir (mod : Mod) (subpkg : String) : String :=
  goJoin [mod.Dir, importPathIntersect mod.ImportPath subpkg]

/-- The filter pass for one module (the body of the loop on lines 119-145):
modules with an empty candidate set are skipped entirely; otherwise the
package set is extended, every candidate whose path starts at index 0 of some
scoping directory is marked, and unmarked candidates are deleted. -/
def filterMod (includedPackages : List String) (mod : Mod) : Mod :=
  if mod.VendorList.isEmpty then mod
  else
    { mod with
      Pkgs := extendPkgs includedPackages mod,
      VendorList :=
        (mod.VendorList.map (fun fb =>
          (fb.1, fb.2 || (extendPkgs includedPackages mod).any (fun subpkg =>
            stringsIndex fb.1 (scopeDir mod subpkg) == 0)))).filter (fun fb => fb.2) }

/-! ## Vendor Planner (src/main.go lines 148-169) -/

/-- The fatal copy-phase consistency error (`"Error! vendor file doesn't
belong to mod, strange."`, lines 152-153). -/
inductive PlanError where
  | vendorFileNotInMod
  deriving DecidableEq, Repr

/-- The copy-phase computation for one selected candidate (lines 150-157):
fatal when `strings.Index(vendorFile, mod.Dir) < 0`, otherwise the source path
paired with the destination `./vendor/<ImportPath><vendorFile[len(Dir):]>`. -/
def planFile (mod : Mod) (vendorFile : String) :
    Except PlanError (String × String) :=
  if stringsIndex vendorFile mod.Dir < 0 then .error .vendorFileNotInMod
  else
    let localPath := mod.ImportPath ++ ⟨vendorFile.data.drop mod.Dir.data.length⟩
    .ok (vendorFile, "./vendor/" ++ localPath)

/-- The copy phase over one module's selected candidates. -/
def planMod (mod : Mod) : Except PlanError (List (String × String)) :=
  mod.VendorList.mapM (fun fb => planFile mod fb.1)

/-! ## `-copy` flag preparation (src/main.go lines 62-65) -/

/-- Preparation of the copy patterns: split the trimmed `-copy` value on
spaces and fail when the resulting list is empty. -/
def prepareCopyPat (copyPatFlag : String) : Except String (List String) :=
  let copyPat := stringsSplit (trimSpace copyPatFlag) ' '
  if copyPat.length = 0 then .error "-copy argument is empty."
  else .ok copyPat

/-! ## Verification -/

/-- Bridge between the Go idiom `strings.Index(s, sub) == 0` (used by the
Scope Filter and `importPathIntersect`) and the prefix relation. -/
theorem stringsIndex_eq_zero_iff (s sub : String) :
    stringsIndex s sub = 0 ↔ strStartsWith sub s = true := by
  unfold stringsIndex
  rw [List.range_succ_eq_map]
  cases hp : strStartsWith sub ⟨s.data.drop 0⟩ with
  | true =>
    rw [List.find?_cons_of_pos _ (by simpa using hp)]
    have hs : strStartsWith sub s = true := by simpa [List.drop_zero] using hp
    simp [hs]
  | false =>
    rw [List.find?_cons_of_neg _ (by simpa using hp)]
    constructor
    · intro h
      cases hf : List.find? (fun i => strStartsWith sub ⟨s.data.drop i⟩)
          ((List.range s.data.length).map Nat.succ) with
      | none => rw [hf] at h; simp at h
      | some i =>
        rw [hf] at h
        have hmem := List.mem_of_find?_eq_some hf
        simp only [List.mem_map] at hmem
        obtain ⟨j, -, rfl⟩ := hmem
        rw [Int.natCast_eq_zero] at h
        exact (Nat.succ_ne_zero j h).elim
    · intro h
      rw [List.drop_zero] at hp
      rw [show (⟨s.data⟩ : String) = s from rfl] at hp
      rw [hp] at h
      simp at h

/-- A string that begins with `sub` has `strings.Index` zero, hence not
negative. -/
theorem stringsIndex_not_neg_of_starts (s sub : String)
    (h : strStartsWith sub s = true) : ¬ stringsIndex s sub < 0 := by
  rw [(stringsIndex_eq_zero_iff s sub).mpr h]
  omega

/-- Equality of `Except` results is decidable (needed to evaluate the
embedding at concrete inputs). -/
instance {e a : Type} [DecidableEq e] [DecidableEq a] : DecidableEq (Except e a) :=
  fun x y =>
    match x, y with
    | .ok v, .ok w =>
      if h : v = w then isTrue (by rw [h]) else isFalse (by simp [h])
    | .error u, .error t =>
      if h : u = t then isTrue (by rw [h]) else isFalse (by simp [h])
    | .ok _, .error _ => isFalse (by simp)
    | .error _, .ok _ => isFalse (by simp)

/-- Claim C2 (confirmed).  Vendor Planner mapping: for a candidate whose path
is the module's cache directory followed by a suffix, the copy phase produces
exactly the destination `./vendor/<module-import-path><suffix>` — the cache
directory prefix is replaced by the vendor root plus the import path and the
suffix is preserved unchanged (src/main.go lines 148-169). -/
theorem C2_vendor_planner_mapping (mod : Mod) (suffix : String) :
    planFile mod ⟨mod.Dir.data ++ suffix.data⟩ =
      .ok (⟨mod.Dir.data ++ suffix.data⟩, "./vendor/" ++ (mod.ImportPath ++ suffix)) := by
  have hpre : strStartsWith mod.Dir ⟨mod.Dir.data ++ suffix.data⟩ = true := by
    unfold strStartsWith
    simp [List.isPrefixOf_iff_prefix]
  unfold planFile
  rw [if_neg (stringsIndex_not_neg_of_starts _ _ hpre)]
  have hdrop : (⟨(mod.Dir.data ++ suffix.data).drop mod.Dir.data.length⟩ : String) = suffix := by
    rw [List.drop_left]
  rw [hdrop]

/-- Claim C3 (code bug).  The guard `len(copyPat) == 0` on src/main.go lines
62-65 is intended to reject an empty `-copy` flag, but `strings.Split` never
returns an empty slice: splitting the trimmed empty string yields `[""]`, so
the branch is dead and a `-copy` value that trims to the empty string is
accepted (the empty string then acts as one glob pattern) instead of being a
fatal precondition error. -/
theorem C3_empty_copy_not_fatal :
    prepareCopyPat "" = .ok [""] ∧ prepareCopyPat "   " = .ok [""] ∧
    prepareCopyPat "" ≠ .error "-copy argument is empty." := by decide

/-- A concrete module record exercising the copy-phase consistency check. -/
def modC7 : Mod := { ImportPath := "a", Version := "v1", Dir := "/m/a@v1" }

/-- Claim C7, counterexample to the claim as stated: the candidate path
`/x/m/a@v1/f.h` does not begin with the owning module's cache directory
`/m/a@v1`, yet the copy phase does not fail — `strings.Index` finds the cache
directory as an interior substring (index 2), the guard `x < 0` passes, and a
destination is computed from the mismatched path by dropping `len(Dir)`
characters from the front. -/
theorem C7_counterexample :
    strStartsWith modC7.Dir "/x/m/a@v1/f.h" = false ∧
    planFile modC7 "/x/m/a@v1/f.h" = .ok ("/x/m/a@v1/f.h", "./vendor/av1/f.h") := by
  decide

/-- Claim C7 (corrected).  The copy phase treats as a fatal consistency error
exactly the selected candidates whose path does not contain the owning
module's cache directory as a substring anywhere (`strings.Index < 0`,
src/main.go lines 150-154); any candidate containing it — as a prefix or not —
passes the check and its destination is computed by dropping the first
`len(Dir)` characters of its path. -/
theorem C7_consistency_check_amended (mod : Mod) (f : String) :
    (stringsIndex f mod.Dir < 0 → planFile mod f = .error .vendorFileNotInMod)
    ∧ (0 ≤ stringsIndex f mod.Dir →
        planFile mod f =
          .ok (f, "./vendor/" ++ (mod.ImportPath ++ ⟨f.data.drop mod.Dir.data.length⟩))) := by
  constructor
  · intro h
    unfold planFile
    rw [if_pos h]
  · intro h
    unfold planFile
    rw [if_neg (by omega)]

/-- Witness for C7's amended theorem: a candidate path in which the cache
directory does not occur at all is rejected as fatal. -/
theorem C7_amended_witness :
    planFile modC7 "nope" = .error .vendorFileNotInMod :=
  (C7_consistency_check_amended modC7 "nope").1 (by decide)

/-- A module whose package set scopes the sub-directory `bar` while its cache
holds a sibling directory `barbecue`. -/
def modC10 : Mod :=
  { ImportPath := "a", Version := "v1", Dir := "/m/a@v1", Pkgs := ["a/bar"],
    VendorList := [("/m/a@v1/barbecue/x.h", false)] }

/-- Claim C10 (confirmed).  Scope matching is a raw string-prefix comparison
with no path-segment boundary check: the scoping directory of sub-package
`a/bar` is `/m/a@v1/bar`, the candidate `/m/a@v1/barbecue/x.h` under the
sibling directory `barbecue` begins with that string, and the Scope Filter
therefore selects it (src/main.go lines 130-139, 189-194). -/
theorem C10_no_segment_boundary :
    scopeDir modC10 "a/bar" = "/m/a@v1/bar"
    ∧ strStartsWith "/m/a@v1/bar" "/m/a@v1/barbecue/x.h" = true
    ∧ (filterMod [] modC10).VendorList = [("/m/a@v1/barbecue/x.h", true)] := by
  decide

/-- The ASCII uppercase test, read off on code points: `Char.isUpper` holds
exactly for code points 65 to 90. -/
theorem isUpper_iff (c : Char) : c.isUpper = true ↔ 65 ≤ c.toNat ∧ c.toNat ≤ 90 := by
  unfold Char.isUpper Char.toNat
  simp [Bool.and_eq_true, decide_eq_true_eq, UInt32.le_def, BitVec.le_def, UInt32.toNat]

/-- Lowercasing any character never yields an uppercase letter. -/
theorem toLower_not_upper (c : Char) : (c.toLower).isUpper = false := by
  cases hu : c.isUpper with
  | true =>
    obtain ⟨h1, h2⟩ := (isUpper_iff c).mp hu
    unfold Char.toLower
    rw [if_pos ⟨h1, h2⟩]
    set n := c.toNat with hn
    clear_value n
    interval_cases n <;> decide
  | false =>
    have h : ¬ (c.toNat ≥ 65 ∧ c.toNat ≤ 90) := by
      intro hc
      rw [(isUpper_iff c).mpr hc] at hu
      exact absurd hu (by simp)
    unfold Char.toLower
    rw [if_neg h]
    exact hu

/-- Claim C6 (confirmed).  Path Encoder: encoding is deterministic; the
encoding is a character-by-character scan (it distributes over concatenation),
an uppercase letter becomes the escape marker `!` followed by its lowercase
form, every other character passes through unchanged, no uppercase letter
remains in the encoded import path, and the cache directory is the cache root,
the encoded import path and the unescaped version joined with the separator
`@` (src/main.go lines 196-214). -/
theorem C6_path_encoder :
    (∀ (env : Env) (ip v : String), pkgModPath env ip v = pkgModPath env ip v)
    ∧ (∀ a b : String, normPath (a ++ b) = normPath a ++ normPath b)
    ∧ (∀ c : Char, c.isUpper = true → normPath ⟨[c]⟩ = ⟨['!', c.toLower]⟩)
    ∧ (∀ c : Char, c.isUpper = false → normPath ⟨[c]⟩ = ⟨[c]⟩)
    ∧ (∀ ip : String, ∀ c ∈ (normPath ip).data, c.isUpper = false)
    ∧ (∀ (env : Env) (ip v : String),
        pkgModPath env ip v =
          goJoin [resolvedGoPath env, "pkg", "mod", normPath ip ++ "@" ++ v]) := by
  refine ⟨fun _ _ _ => rfl, ?_, ?_, ?_, ?_, fun _ _ _ => rfl⟩
  · intro a b
    unfold normPath
    show String.mk _ = String.mk _ ++ String.mk _
    rw [show (String.mk (a.data.map encChar).flatten) ++ String.mk (b.data.map encChar).flatten
        = String.mk ((a.data.map encChar).flatten ++ (b.data.map encChar).flatten) from rfl]
    apply congrArg String.mk
    rw [String.data_append, List.map_append, List.flatten_append]
  · intro c h
    unfold normPath
    apply congrArg String.mk
    simp [encChar, h]
  · intro c h
    unfold normPath
    apply congrArg String.mk
    simp [encChar, h]
  · intro ip c hc
    unfold normPath at hc
    simp only [List.mem_flatten, List.mem_map] at hc
    obtain ⟨l, ⟨a, ha, rfl⟩, hcl⟩ := hc
    unfold encChar at hcl
    by_cases hu : a.isUpper
    · rw [if_pos hu] at hcl
      simp only [List.mem_cons, List.not_mem_nil, or_false] at hcl
      rcases hcl with rfl | rfl
      · decide
      · exact toLower_not_upper a
    · rw [if_neg hu] at hcl
      simp only [List.mem_cons, List.not_mem_nil, or_false] at hcl
      subst hcl
      simpa using hu

/-- Witness for C6: the encoder at concrete characters — `A` becomes `!a`,
`b` passes through, and the escape marker itself is not uppercase. -/
theorem C6_witness :
    normPath ⟨['A']⟩ = ⟨['!', 'A'.toLower]⟩ ∧ normPath ⟨['b']⟩ = ⟨['b']⟩ ∧
    ('!').isUpper = false :=
  ⟨C6_path_encoder.2.2.1 'A' (by decide),
   C6_path_encoder.2.2.2.1 'b' (by decide),
   C6_path_encoder.2.2.2.2.1 ⟨['A']⟩ '!' (by decide)⟩

/-! ### Parser lemmas -/

/-- A non-empty line not starting with the sentinel `#` is a package line: it
is appended to the current record's package set (src/main.go line 115). -/
theorem processLine_pkg (env : Env) (cp : List String) (st : ParseState)
    (l : String) (c : Char) (t : List Char)
    (hd : l.data = c :: t) (hc : c ≠ '#') (m : Mod) (b : Bool)
    (hcur : st.current = some (m, b)) :
    processLine env cp st l =
      .ok ⟨st.finished, some ({ m with Pkgs := m.Pkgs ++ [l] }, b)⟩ := by
  unfold processLine
  rw [hd]
  simp [hc, hcur]

/-- A package line with no current record dereferences the nil module pointer
(src/main.go line 115 with `mod == nil`). -/
theorem processLine_none (env : Env) (cp : List String) (st : ParseState)
    (l : String) (c : Char) (t : List Char)
    (hd : l.data = c :: t) (hc : c ≠ '#') (hcur : st.current = none) :
    processLine env cp st l = .error .nilModule := by
  unfold processLine
  rw [hd]
  simp [hc, hcur]

/-- An empty line crashes the dispatch `line[0]` (src/main.go line 82). -/
theorem processLine_empty (env : Env) (cp : List String) (st : ParseState)
    (l : String) (hd : l.data = []) :
    processLine env cp st l = .error .indexOutOfRange := by
  unfold processLine
  rw [hd]

/-- A failing first line fails the whole fold. -/
theorem foldlM_err (env : Env) (cp : List String) (st : ParseState)
    (l : String) (ls : List String) (e : ParseError)
    (h : processLine env cp st l = .error e) :
    (l :: ls).foldlM (processLine env cp) st = .error e := by
  show (processLine env cp st l >>= fun st1 => ls.foldlM (processLine env cp) st1) = _
  rw [h]
  rfl

/-- A successful first line steps the fold. -/
theorem foldlM_ok_cons (env : Env) (cp : List String) (st st1 : ParseState)
    (l : String) (ls : List String)
    (h : processLine env cp st l = .ok st1) :
    (l :: ls).foldlM (processLine env cp) st = ls.foldlM (processLine env cp) st1 := by
  show (processLine env cp st l >>= fun s => ls.foldlM (processLine env cp) s) = _
  rw [h]
  rfl

/-- A failing fold fails the parse. -/
theorem parseLines_of_foldlM_err (env : Env) (cp : List String)
    (lines : List String) (e : ParseError)
    (h : lines.foldlM (processLine env cp) ⟨[], none⟩ = .error e) :
    parseLines env cp lines = .error e := by
  unfold parseLines
  rw [h]
  rfl

/-- Package lines only mutate the current record in place: they change
neither the finished list nor the emitted flag. -/
theorem pkgLines_fold (env : Env) (cp : List String) (fin : List Mod) (b : Bool) :
    ∀ (ls : List String), (∀ l ∈ ls, ∃ c t, l.data = c :: t ∧ c ≠ '#') →
    ∀ (m : Mod), ∃ m2 : Mod,
      ls.foldlM (processLine env cp) ⟨fin, some (m, b)⟩ = .ok ⟨fin, some (m2, b)⟩ := by
  intro ls
  induction ls with
  | nil => intro _ m; exact ⟨m, rfl⟩
  | cons l ls ih =>
    intro hls m
    obtain ⟨c, t, hd, hc⟩ := hls l (List.mem_cons_self l ls)
    have hstep := processLine_pkg env cp ⟨fin, some (m, b)⟩ l c t hd hc m b rfl
    rw [foldlM_ok_cons env cp _ _ l ls hstep]
    exact ih (fun x hx => hls x (List.mem_cons_of_mem l hx)) _

/-- A concrete environment for evaluating the parser: every directory exists
and every glob matches nothing. -/
def envT : Env :=
  { goPathEnv := "/gp", homeEnv := "/h",
    dirExists := fun _ => true, glob := fun _ => [] }

/-- Claim C4 (confirmed).  A module line whose third token is the redirection
marker `=>` with no further tokens emits no module record: the cursor is set
to a detached, never-appended record (src/main.go lines 89-93), so the
emitted-modules list is unchanged, and any package lines that follow are
appended to that detached record, leaving the emitted-modules list unchanged
as well — they are attributed to no emitted record. -/
theorem C4_redirect_marker_skips (env : Env) (cp : List String) (st : ParseState)
    (line ip : String) (t : List Char)
    (hd : line.data = '#' :: t)
    (hsplit : stringsSplit line ' ' = ["#", ip, "=>"]) :
    processLine env cp st line =
      .ok ⟨st.modules, some ({ ImportPath := ip, Version := "=>" }, false)⟩
    ∧ ∀ pkgLines : List String,
        (∀ l ∈ pkgLines, ∃ c t2, l.data = c :: t2 ∧ c ≠ '#') →
        ∃ m2 : Mod,
          pkgLines.foldlM (processLine env cp)
              ⟨st.modules, some ({ ImportPath := ip, Version := "=>" }, false)⟩
            = .ok ⟨st.modules, some (m2, false)⟩
          ∧ ParseState.modules ⟨st.modules, some (m2, false)⟩ = st.modules := by
  constructor
  · unfold processLine
    rw [hd]
    simp [hsplit]
  · intro pkgLines hpkg
    obtain ⟨m2, hm2⟩ := pkgLines_fold env cp st.modules false pkgLines hpkg
      { ImportPath := ip, Version := "=>" }
    exact ⟨m2, hm2, by simp [ParseState.modules]⟩

/-- Witness for C4: the skip line `# a =>` emits nothing and the following
package line `p` leaves the emitted-modules list empty. -/
theorem C4_witness :
    processLine envT [] ⟨[], none⟩ "# a =>" =
      .ok ⟨[], some ({ ImportPath := "a", Version := "=>" }, false)⟩
    ∧ ∃ m2 : Mod,
        List.foldlM (processLine envT [])
            ⟨[], some ({ ImportPath := "a", Version := "=>" }, false)⟩ ["p"]
          = .ok ⟨[], some (m2, false)⟩
        ∧ ParseState.modules ⟨[], some (m2, false)⟩ = [] := by
  have h := C4_redirect_marker_skips envT [] ⟨[], none⟩ "# a =>" "a"
    [' ', 'a', ' ', '=', '>'] (by decide) (by decide)
  refine ⟨h.1, ?_⟩
  apply h.2 ["p"]
  intro l hl
  rw [List.mem_singleton] at hl
  subst hl
  exact ⟨'p', [], by decide, by decide⟩

/-- Claim C5 (confirmed).  A module line with a replace directive (fourth
token `=>`) resolves the emitted record's cache directory from the
replacement import path and version (tokens five and six); a module line
without one resolves it from the original import path and version
(src/main.go lines 94-101). -/
theorem C5_replace_resolution (env : Env) (cp : List String) (st : ParseState) :
    (∀ (line ip ver sp sv : String) (t : List Char),
      line.data = '#' :: t →
      stringsSplit line ' ' = ["#", ip, ver, "=>", sp, sv] →
      ver ≠ "=>" →
      env.dirExists (pkgModPath env sp sv) = true →
      ∃ m : Mod,
        processLine env cp st line = .ok ⟨st.modules, some (m, true)⟩
        ∧ m.Dir = pkgModPath env sp sv ∧ m.SourcePath = sp ∧ m.SourceVersion = sv
        ∧ m.ImportPath = ip ∧ m.Version = ver)
    ∧ (∀ (line ip ver : String) (t : List Char),
      line.data = '#' :: t →
      stringsSplit line ' ' = ["#", ip, ver] →
      ver ≠ "=>" →
      env.dirExists (pkgModPath env ip ver) = true →
      ∃ m : Mod,
        processLine env cp st line = .ok ⟨st.modules, some (m, true)⟩
        ∧ m.Dir = pkgModPath env ip ver ∧ m.SourcePath = "" ∧ m.SourceVersion = ""
        ∧ m.ImportPath = ip ∧ m.Version = ver) := by
  constructor
  · intro line ip ver sp sv t hd hsplit hver hex
    refine ⟨{ ImportPath := ip, SourcePath := sp, Version := ver, SourceVersion := sv,
              Dir := pkgModPath env sp sv,
              VendorList := buildModVendorList env cp
                { ImportPath := ip, SourcePath := sp, Version := ver,
                  SourceVersion := sv, Dir := pkgModPath env sp sv } },
            ?_, rfl, rfl, rfl, rfl, rfl⟩
    unfold processLine
    rw [hd]
    simp only [hsplit]
    simp [hver, finishModule, hex]
  · intro line ip ver t hd hsplit hver hex
    refine ⟨{ ImportPath := ip, Version := ver, Dir := pkgModPath env ip ver,
              VendorList := buildModVendorList env cp
                { ImportPath := ip, Version := ver, Dir := pkgModPath env ip ver } },
            ?_, rfl, rfl, rfl, rfl, rfl⟩
    unfold processLine
    rw [hd]
    simp only [hsplit]
    simp [hver, finishModule, hex]

/-- Witness for C5: `# a v1 => b v2` resolves from the replacement `b v2`,
and `# c v3` resolves from the original `c v3`. -/
theorem C5_witness :
    (∃ m : Mod,
      processLine envT [] ⟨[], none⟩ "# a v1 => b v2" = .ok ⟨[], some (m, true)⟩
      ∧ m.Dir = pkgModPath envT "b" "v2" ∧ m.SourcePath = "b" ∧ m.SourceVersion = "v2"
      ∧ m.ImportPath = "a" ∧ m.Version = "v1")
    ∧ (∃ m : Mod,
      processLine envT [] ⟨[], none⟩ "# c v3" = .ok ⟨[], some (m, true)⟩
      ∧ m.Dir = pkgModPath envT "c" "v3" ∧ m.SourcePath = "" ∧ m.SourceVersion = ""
      ∧ m.ImportPath = "c" ∧ m.Version = "v3") :=
  ⟨(C5_replace_resolution envT [] ⟨[], none⟩).1 "# a v1 => b v2" "a" "v1" "b" "v2"
      [' ', 'a', ' ', 'v', '1', ' ', '=', '>', ' ', 'b', ' ', 'v', '2']
      (by decide) (by decide) (by decide) (by decide),
   (C5_replace_resolution envT [] ⟨[], none⟩).2 "# c v3" "c" "v3"
      [' ', 'c', ' ', 'v', '3']
      (by decide) (by decide) (by decide) (by decide)⟩

/-- Claim C8 (confirmed).  A manifest in which a package line appears before
any module line fails fatally: when the package line is the very first line
the failure is precisely the undefined-current-module dereference, and any
lines before it that are not module lines themselves already fail fatally
(empty lines crash the dispatch, earlier package lines are themselves the
undefined-module case), so no such manifest parses (src/main.go lines 76,
115). -/
theorem C8_pkg_before_module (env : Env) (cp : List String)
    (pre : List String) (l : String) (rest : List String) (c : Char) (t : List Char)
    (hpre : ∀ p ∈ pre, p.data.head? ≠ some '#')
    (hd : l.data = c :: t) (hc : c ≠ '#') :
    (∃ e, parseLines env cp (pre ++ l :: rest) = .error e)
    ∧ (pre = [] → parseLines env cp (l :: rest) = .error .nilModule) := by
  have hfirst : parseLines env cp (l :: rest) = .error .nilModule := by
    apply parseLines_of_foldlM_err
    exact foldlM_err env cp _ l rest _ (processLine_none env cp _ l c t hd hc rfl)
  constructor
  · cases pre with
    | nil => exact ⟨.nilModule, hfirst⟩
    | cons p pre2 =>
      cases hpd : p.data with
      | nil =>
        refine ⟨.indexOutOfRange, ?_⟩
        apply parseLines_of_foldlM_err
        exact foldlM_err env cp _ p _ _ (processLine_empty env cp _ p hpd)
      | cons c0 t0 =>
        have hc0 : c0 ≠ '#' := by
          intro rfl0
          apply hpre p (List.mem_cons_self p pre2)
          rw [hpd, rfl0]
          rfl
        refine ⟨.nilModule, ?_⟩
        apply parseLines_of_foldlM_err
        exact foldlM_err env cp _ p _ _ (processLine_none env cp _ p c0 t0 hpd hc0 rfl)
  · intro _
    exact hfirst

/-- Witness for C8: a manifest whose first line is the package line `x/y`
fails with the undefined-current-module error. -/
theorem C8_witness : parseLines envT [] ["x/y"] = .error .nilModule :=
  (C8_pkg_before_module envT [] [] "x/y" [] 'x' ['/', 'y']
    (fun p hp => absurd hp (List.not_mem_nil p)) (by decide) (by decide)).2 rfl

/-- A successful fold visited no empty line. -/
theorem parse_ok_no_empty_aux (env : Env) (cp : List String) :
    ∀ (ls : List String) (st st2 : ParseState),
      ls.foldlM (processLine env cp) st = .ok st2 → ∀ l ∈ ls, l.data ≠ [] := by
  intro ls
  induction ls with
  | nil => intro st st2 _ l hl; cases hl
  | cons l ls ih =>
    intro st st2 hok x hx
    cases hstep : processLine env cp st l with
    | error e =>
      rw [foldlM_err env cp st l ls e hstep] at hok
      cases hok
    | ok st1 =>
      rw [foldlM_ok_cons env cp st st1 l ls hstep] at hok
      rcases List.mem_cons.mp hx with rfl | hx2
      · intro hdat
        rw [processLine_empty env cp st x hdat] at hstep
        cases hstep
      · exact ih st1 st2 hok x hx2

/-- Claim C9 (confirmed).  The line dispatch reads `line[0]` with no
emptiness guard: processing an empty line always crashes with the
out-of-range index error, a successful parse implies every line was
non-empty, and a manifest containing an empty line never parses
(src/main.go lines 79-82). -/
theorem C9_empty_line_crash (env : Env) (cp : List String) :
    (∀ st : ParseState, processLine env cp st "" = .error .indexOutOfRange)
    ∧ (∀ (lines : List String) (mods : List Mod),
        parseLines env cp lines = .ok mods → ∀ l ∈ lines, l ≠ "")
    ∧ (∀ lines : List String, "" ∈ lines →
        ∃ e, parseLines env cp lines = .error e) := by
  have hok : ∀ (lines : List String) (mods : List Mod),
      parseLines env cp lines = .ok mods → ∀ l ∈ lines, l ≠ "" := by
    intro lines mods h l hl hcontra
    cases hf : lines.foldlM (processLine env cp) (⟨[], none⟩ : ParseState) with
    | error e =>
      rw [parseLines_of_foldlM_err env cp lines e hf] at h
      cases h
    | ok st2 =>
      have := parse_ok_no_empty_aux env cp lines _ st2 hf l hl
      rw [hcontra] at this
      exact this rfl
  refine ⟨fun st => processLine_empty env cp st "" rfl, hok, ?_⟩
  intro lines hmem
  cases hp : parseLines env cp lines with
  | error e => exact ⟨e, rfl⟩
  | ok mods => exact absurd rfl (hok lines mods hp "" hmem)

/-- Witness for C9: the two-line manifest `# a v1`, `` (empty) fails. -/
theorem C9_witness : ∃ e, parseLines envT [] ["# a v1", ""] = .error e :=
  (C9_empty_line_crash envT []).2.2 ["# a v1", ""] (by decide)

/-! ### Path-cleaning lemmas used for the empty-suffix case of the filter -/

/-- Splitting never yields an empty component list. -/
theorem splitOnChar_ne_nil (sep : Char) (l : List Char) : splitOnChar sep l ≠ [] := by
  cases l with
  | nil => simp [splitOnChar]
  | cons c cs =>
    unfold splitOnChar
    cases h : splitOnChar sep cs with
    | nil => simp
    | cons r rs =>
      by_cases hc : c = sep <;> simp [hc]

/-- A trailing separator contributes one trailing empty component. -/
theorem splitOnChar_append_sep (sep : Char) (l : List Char) :
    splitOnChar sep (l ++ [sep]) = splitOnChar sep l ++ [[]] := by
  induction l with
  | nil => simp [splitOnChar]
  | cons c cs ih =>
    show splitOnChar sep (c :: (cs ++ [sep])) = _
    unfold splitOnChar
    rw [ih]
    cases h : splitOnChar sep cs with
    | nil => exact absurd h (splitOnChar_ne_nil sep cs)
    | cons r rs =>
      by_cases hc : c = sep <;> simp [hc]

/-- Unfolding equation of `clean` on a non-empty character list. -/
theorem clean_cons (c : Char) (l : List Char) :
    clean ⟨c :: l⟩ =
      (let rooted := c = '/'
       let comps := ((splitOnChar '/' (c :: l)).foldl (cleanStep rooted) []).reverse
       let body := List.intercalate ['/'] comps
       if rooted then ⟨'/' :: body⟩ else if body = [] then "." else ⟨body⟩) := rfl

/-- An empty component is dropped by the cleaning step. -/
theorem cleanStep_nil (rooted : Bool) (acc : List (List Char)) :
    cleanStep rooted acc [] = acc := by simp [cleanStep]

/-- A trailing slash does not change the cleaned path. -/
theorem clean_append_slash (c : Char) (t : List Char) :
    clean ⟨(c :: t) ++ ['/']⟩ = clean ⟨c :: t⟩ := by
  show clean ⟨c :: (t ++ ['/'])⟩ = clean ⟨c :: t⟩
  rw [clean_cons, clean_cons]
  have hsplit : splitOnChar '/' (c :: (t ++ ['/'])) = splitOnChar '/' (c :: t) ++ [[]] :=
    splitOnChar_append_sep '/' (c :: t)
  simp only [hsplit, List.foldl_append, List.foldl_cons, List.foldl_nil, cleanStep_nil]

/-- Joining a non-empty path with the empty string cleans the path:
`Join(d, "") = Clean(d)`. -/
theorem goJoin_pair_empty (d : String) (hd : d ≠ "") : goJoin [d, ""] = clean d := by
  unfold goJoin
  have hbeq : (d == "") = false := by
    rw [beq_eq_false_iff_ne]
    exact hd
  rw [show List.dropWhile (fun e => e == "") [d, ""] = [d, ""] by
    simp [List.dropWhile, hbeq]]
  show clean ⟨List.intercalate ['/'] ([d, ""].map String.data)⟩ = clean d
  have hint : List.intercalate ['/'] ([d, ""].map String.data) = d.data ++ ['/'] := by
    simp [List.intercalate, List.intersperse]
  rw [hint]
  cases hdd : d.data with
  | nil =>
    apply absurd _ hd
    cases d with
    | mk data =>
      simp only [] at hdd
      subst hdd
      rfl
  | cons c t =>
    show clean ⟨(c :: t) ++ ['/']⟩ = clean d
    rw [clean_append_slash]
    rw [show (⟨c :: t⟩ : String) = ⟨d.data⟩ by rw [hdd]]

/-- Claim C1 (confirmed).  Scope Filter selection: for a module with a
non-empty candidate set (all candidates initially unmarked, as the Collector
produces them), a candidate ends up selected iff it was a candidate and its
path begins with the scoping directory of some entry of the extended package
set (the module's package set with the matching `-include` prefixes
appended); moreover an entry that does not start with the module's import
path yields the empty suffix, whose scoping directory is the (clean) cache
directory itself and which therefore matches every candidate lying under the
cache directory (src/main.go lines 119-145, 189-194). -/
theorem C1_scope_filter_selection (inc : List String) (mod : Mod)
    (hne : mod.VendorList.isEmpty = false)
    (hflags : ∀ fb ∈ mod.VendorList, fb.2 = false) :
    (∀ f : String,
      ((f, true) ∈ (filterMod inc mod).VendorList ↔
        ((f, false) ∈ mod.VendorList ∧
          ∃ p ∈ extendPkgs inc mod, strStartsWith (scopeDir mod p) f = true)))
    ∧ (∀ p : String, strStartsWith mod.ImportPath p = false →
        importPathIntersect mod.ImportPath p = ""
        ∧ (clean mod.Dir = mod.Dir →
            scopeDir mod p = mod.Dir
            ∧ ∀ f : String, strStartsWith mod.Dir f = true →
                strStartsWith (scopeDir mod p) f = true)) := by
  constructor
  · intro f
    unfold filterMod
    rw [if_neg (by simp [hne])]
    simp only [List.mem_filter, List.mem_map]
    constructor
    · rintro ⟨⟨fb, hfb, heq⟩, -⟩
      obtain ⟨f1, b1⟩ := fb
      rw [Prod.mk.injEq] at heq
      obtain ⟨hf1, hb⟩ := heq
      simp only at hf1 hb
      subst hf1
      have hb1 : b1 = false := hflags (f1, b1) hfb
      subst hb1
      rw [Bool.false_or] at hb
      rw [List.any_eq_true] at hb
      obtain ⟨p, hp, hpp⟩ := hb
      rw [beq_iff_eq] at hpp
      rw [stringsIndex_eq_zero_iff] at hpp
      exact ⟨hfb, p, hp, hpp⟩
    · rintro ⟨hmem, p, hp, hpre⟩
      refine ⟨⟨(f, false), hmem, ?_⟩, trivial⟩
      rw [Prod.mk.injEq]
      refine ⟨rfl, ?_⟩
      rw [Bool.false_or, List.any_eq_true]
      exact ⟨p, hp, by rw [beq_iff_eq, stringsIndex_eq_zero_iff]; exact hpre⟩
  · intro p hp
    have h1 : importPathIntersect mod.ImportPath p = "" := by
      unfold importPathIntersect
      rw [if_pos]
      intro h0
      rw [stringsIndex_eq_zero_iff] at h0
      rw [hp] at h0
      cases h0
    refine ⟨h1, fun hclean => ?_⟩
    have hDir_ne : mod.Dir ≠ "" := by
      intro h0
      rw [h0] at hclean
      exact absurd hclean (by decide)
    have h2 : scopeDir mod p = mod.Dir := by
      unfold scopeDir
      rw [h1, goJoin_pair_empty mod.Dir hDir_ne, hclean]
    exact ⟨h2, fun f hf => by rw [h2]; exact hf⟩

/-- A module with one scoped sub-package and two candidates, one in scope. -/
def modC1 : Mod :=
  { ImportPath := "a", Version := "v1", Dir := "/m/a@v1", Pkgs := ["a/bar"],
    VendorList := [("/m/a@v1/bar/x.h", false), ("/m/a@v1/baz/y.h", false)] }

/-- Witness for C1: the candidate under `bar` is selected because its path
begins with the scoping directory of the sub-package `a/bar`. -/
theorem C1_witness :
    ("/m/a@v1/bar/x.h", true) ∈ (filterMod [] modC1).VendorList :=
  ((C1_scope_filter_selection [] modC1 (by decide) (by decide)).1
      "/m/a@v1/bar/x.h").mpr
    ⟨by decide, "a/bar", by decide, by decide⟩

end Modvendor
